import Mathlib

/-!
Verification development for the logcat-viewer repository.

The TypeScript source is shallowly embedded: JS strings are Lean `String`
(operated on through their `List Char` data to keep everything kernel
computable), optional record fields become `Option`, the five logcat line
regexes become explicit patterns interpreted by a small greedy backtracking
matcher, and `Array.prototype.sort` with a numeric comparator becomes the
stable `List.mergeSort` with `le a b := cmp a b ≤ 0`.
-/

namespace Logcat

/-! ### JavaScript string primitives -/

/-- Model of the JS `\s` class / `String.prototype.trim` whitespace set. -/
def jsWhitespaceChar (c : Char) : Bool :=
  c == ' ' || c == '\t' || c == '\n' || c == '\x0b' || c == '\x0c' || c == '\r' ||
  c == '\u00a0' || c == '\u1680' ||
  (decide (0x2000 ≤ c.toNat) && decide (c.toNat ≤ 0x200a)) ||
  c == '\u2028' || c == '\u2029' || c == '\u202f' || c == '\u205f' ||
  c == '\u3000' || c == '\ufeff'

/-- Model of JS `String.prototype.trim`. -/
def jsTrim (s : String) : String :=
  String.mk (((s.data.dropWhile jsWhitespaceChar).reverse.dropWhile jsWhitespaceChar).reverse)

/-- `sub.isPrefixOf hay` over char lists (used to model `String.prototype.includes`). -/
def prefixChars : List Char → List Char → Bool
  | [], _ => true
  | _ :: _, [] => false
  | c :: cs, d :: ds => c == d && prefixChars cs ds

/-- `hay` contains `sub` as a contiguous run. -/
def containsSub : List Char → List Char → Bool
  | [], sub => prefixChars sub []
  | c :: t, sub => prefixChars sub (c :: t) || containsSub t sub

/-- Model of JS `String.prototype.includes`. -/
def strIncludes (s sub : String) : Bool :=
  containsSub s.data sub.data

/-- Model of JS `String.prototype.toLowerCase` (ASCII-faithful). -/
def toLowerJS (s : String) : String :=
  String.mk (s.data.map Char.toLower)

/-- Split a char list at every char satisfying `p` (JS `split` with a
single-char separator when `p` is equality with that char). -/
def splitOnP (p : Char → Bool) : List Char → List (List Char)
  | [] => [[]]
  | c :: r =>
    let rest := splitOnP p r
    if p c then [] :: rest
    else
      match rest with
      | [] => [[c]]
      | h :: t => (c :: h) :: t

/-- Model of JS `String.prototype.split` with a one-character separator. -/
def splitCh (sep : Char) (s : String) : List String :=
  (splitOnP (fun c => c == sep) s.data).map String.mk

/-- Model of JS `split(/\s+/)` applied to an already-trimmed string:
splitting at every whitespace char and dropping the empty pieces between
consecutive whitespace chars yields exactly the `\s+`-separated words. -/
def splitWsRuns (s : String) : List String :=
  ((splitOnP jsWhitespaceChar s.data).filter (fun w => !w.isEmpty)).map String.mk

/-- Digit-run value in base 10. -/
def digitsToNat (ds : List Char) : Nat :=
  ds.foldl (fun a c => a * 10 + (c.toNat - 48)) 0

/-- Model of JS `parseInt(s, 10)`: trim leading whitespace, optional sign,
longest digit run; `none` models `NaN` (no digits at all). -/
def parseIntJS (s : String) : Option Int :=
  let core : List Char → Option Int := fun cs =>
    let ds := cs.takeWhile Char.isDigit
    if ds.isEmpty then none else some (Int.ofNat (digitsToNat ds))
  match s.data.dropWhile jsWhitespaceChar with
  | '-' :: rest => (core rest).map (fun n => -n)
  | '+' :: rest => core rest
  | rest => core rest

/-- `parseIntJS` defaulted to `0`; only applied to regex-guaranteed digit
runs, where the `NaN` branch is unreachable. -/
def parseIntD (s : String) : Int :=
  (parseIntJS s).getD 0

/-- Does the string start with the given char (JS `startsWith` for a
one-character prefix)? -/
def startsWithCh (s : String) (c : Char) : Bool :=
  match s.data with
  | d :: _ => d == c
  | [] => false

/-- Does the string end with the given char (JS `endsWith` for a
one-character suffix)? -/
def endsWithCh (s : String) (c : Char) : Bool :=
  match s.data.getLast? with
  | some d => d == c
  | none => false

/-! ### Regex engine

The five logcat format regexes are linear sequences of character classes
under `{n}` / `+` / `*` quantifiers, grouped into capture groups.  They are
interpreted by a greedy backtracking matcher that enumerates alternatives in
JS preference order (longest-first for greedy quantifiers) and anchors at
both ends, exactly the behavior of `String.prototype.match` on these
`^...$` patterns. -/

/-- One quantified character class of a pattern. -/
inductive RItem where
  | one (p : Char → Bool)
  | rep (n : Nat) (p : Char → Bool)
  | plus (p : Char → Bool)
  | star (p : Char → Bool)

/-- A pattern element: an uncaptured run of items or a capture group. -/
inductive RElem where
  | raw (items : List RItem)
  | cap (items : List RItem)

/-- Consume exactly `n` chars satisfying `p`. -/
def takeExact : Nat → (Char → Bool) → List Char → Option (List Char × List Char)
  | 0, _, cs => some ([], cs)
  | _ + 1, _, [] => none
  | n + 1, p, c :: r =>
    if p c then (takeExact n p r).map (fun pr => (c :: pr.1, pr.2)) else none

/-- Greedy alternatives for `p*` / `p+`: consumed lengths from the maximal
run length down to `minLen`, in that (backtracking preference) order. -/
def greedyAlts (p : Char → Bool) (cs : List Char) (minLen : Nat) :
    List (List Char × List Char) :=
  let k := (cs.takeWhile p).length
  (List.range (k + 1)).filterMap (fun i =>
    let len := k - i
    if minLen ≤ len then some (cs.take len, cs.drop len) else none)

/-- All (consumed, remaining) splits of one item, in preference order. -/
def itemAlts : RItem → List Char → List (List Char × List Char)
  | .one _, [] => []
  | .one p, c :: r => if p c then [([c], r)] else []
  | .rep n p, cs =>
    match takeExact n p cs with
    | some pr => [pr]
    | none => []
  | .plus p, cs => greedyAlts p cs 1
  | .star p, cs => greedyAlts p cs 0

/-- All (consumed, remaining) splits of an item sequence, in preference
order (earlier items backtrack last, as in a backtracking engine). -/
def itemsAlts : List RItem → List Char → List (List Char × List Char)
  | [], s => [([], s)]
  | it :: its, s =>
    (itemAlts it s).flatMap (fun pr =>
      (itemsAlts its pr.2).map (fun qr => (pr.1 ++ qr.1, qr.2)))

/-- All (captures, remaining) outcomes of a pattern, in preference order. -/
def elemsAlts : List RElem → List Char → List (List String × List Char)
  | [], s => [([], s)]
  | .raw items :: es, s =>
    (itemsAlts items s).flatMap (fun pr => elemsAlts es pr.2)
  | .cap items :: es, s =>
    (itemsAlts items s).flatMap (fun pr =>
      (elemsAlts es pr.2).map (fun qr => (String.mk pr.1 :: qr.1, qr.2)))

/-- Model of `line.match(pattern)` for an `^...$` anchored pattern: the
first full-line match in backtracking preference order, returning the list
of captured groups (`match[1]`, `match[2]`, ... at indices 0, 1, ...). -/
def reMatch (pat : List RElem) (line : String) : Option (List String) :=
  ((elemsAlts pat line.data).find? (fun r => r.2.isEmpty)).map (fun r => r.1)

/-! ### The logcat patterns -/

/-- `\d` -/
def digitCh (c : Char) : Bool := c.isDigit

/-- `[VDIWEFS]` -/
def prioCh (c : Char) : Bool :=
  c == 'V' || c == 'D' || c == 'I' || c == 'W' || c == 'E' || c == 'F' || c == 'S'

/-- `[VDIWEF]` (the webview regexes omit `S`). -/
def webPrioCh (c : Char) : Bool :=
  c == 'V' || c == 'D' || c == 'I' || c == 'W' || c == 'E' || c == 'F'

/-- `.` (any char except line terminators). -/
def dotCh (c : Char) : Bool :=
  !(c == '\n' || c == '\r' || c == '\u2028' || c == '\u2029')

/-- A literal character. -/
def litCh (d : Char) (c : Char) : Bool := c == d

/-- `\d{2}-\d{2}\s+\d{2}:\d{2}:\d{2}\.\d{3}` (the timestamp group body). -/
def tsItems : List RItem :=
  [.rep 2 digitCh, .one (litCh '-'), .rep 2 digitCh, .plus jsWhitespaceChar,
   .rep 2 digitCh, .one (litCh ':'), .rep 2 digitCh, .one (litCh ':'),
   .rep 2 digitCh, .one (litCh '.'), .rep 3 digitCh]

/-- `STANDARD_PATTERN` (= `THREADTIME_PATTERN`):
`^(ts)\s+(\d+)\s+(\d+)\s+([VDIWEFS])\s+([^:]+):\s*(.*)$` -/
def standardPattern : List RElem :=
  [.cap tsItems, .raw [.plus jsWhitespaceChar],
   .cap [.plus digitCh], .raw [.plus jsWhitespaceChar],
   .cap [.plus digitCh], .raw [.plus jsWhitespaceChar],
   .cap [.one prioCh], .raw [.plus jsWhitespaceChar],
   .cap [.plus (fun c => !(c == ':'))],
   .raw [.one (litCh ':'), .star jsWhitespaceChar],
   .cap [.star dotCh]]

/-- `BRIEF_PATTERN`: `^([VDIWEFS])\/([^\(]+)\(\s*(\d+)\):\s*(.*)$` -/
def briefPattern : List RElem :=
  [.cap [.one prioCh], .raw [.one (litCh '/')],
   .cap [.plus (fun c => !(c == '('))],
   .raw [.one (litCh '('), .star jsWhitespaceChar],
   .cap [.plus digitCh],
   .raw [.one (litCh ')'), .one (litCh ':'), .star jsWhitespaceChar],
   .cap [.star dotCh]]

/-- `TIME_PATTERN`: `^(ts)\s+([VDIWEFS])\/([^\(]+)\(\s*(\d+)\):\s*(.*)$` -/
def timePattern : List RElem :=
  [.cap tsItems, .raw [.plus jsWhitespaceChar],
   .cap [.one prioCh], .raw [.one (litCh '/')],
   .cap [.plus (fun c => !(c == '('))],
   .raw [.one (litCh '('), .star jsWhitespaceChar],
   .cap [.plus digitCh],
   .raw [.one (litCh ')'), .one (litCh ':'), .star jsWhitespaceChar],
   .cap [.star dotCh]]

/-- `TAG_PATTERN`: `^([VDIWEFS])\/([^:]+):\s*(.*)$` -/
def tagPattern : List RElem :=
  [.cap [.one prioCh], .raw [.one (litCh '/')],
   .cap [.plus (fun c => !(c == ':'))],
   .raw [.one (litCh ':'), .star jsWhitespaceChar],
   .cap [.star dotCh]]

/-- `LONG_HEADER_PATTERN`:
`^\[\s*(ts)\s+(\d+):\s*(\d+)\s+([VDIWEFS])\/([^\s\]]+)\s*\]$` -/
def longHeaderPattern : List RElem :=
  [.raw [.one (litCh '['), .star jsWhitespaceChar],
   .cap tsItems, .raw [.plus jsWhitespaceChar],
   .cap [.plus digitCh],
   .raw [.one (litCh ':'), .star jsWhitespaceChar],
   .cap [.plus digitCh], .raw [.plus jsWhitespaceChar],
   .cap [.one prioCh], .raw [.one (litCh '/')],
   .cap [.plus (fun c => !(jsWhitespaceChar c || c == ']'))],
   .raw [.star jsWhitespaceChar, .one (litCh ']')]]

/-- The webview `logcatRegex`: the standard pattern with `[VDIWEF]`. -/
def webLogcatPattern : List RElem :=
  [.cap tsItems, .raw [.plus jsWhitespaceChar],
   .cap [.plus digitCh], .raw [.plus jsWhitespaceChar],
   .cap [.plus digitCh], .raw [.plus jsWhitespaceChar],
   .cap [.one webPrioCh], .raw [.plus jsWhitespaceChar],
   .cap [.plus (fun c => !(c == ':'))],
   .raw [.one (litCh ':'), .star jsWhitespaceChar],
   .cap [.star dotCh]]

/-! ### Data model (`logcatParser.ts`) -/

/-- The `LogPriority` enum. -/
inductive LogPriority where
  | V | D | I | W | E | F | S
deriving DecidableEq

/-- The enum letter of a priority. -/
def LogPriority.toChar : LogPriority → Char
  | .V => 'V' | .D => 'D' | .I => 'I' | .W => 'W' | .E => 'E' | .F => 'F' | .S => 'S'

/-- Inverse of `toChar`; the `match[i] as LogPriority` cast, which in the
source is only reached on a char the `[VDIWEFS]` class accepted. -/
def LogPriority.ofChar : Char → Option LogPriority
  | 'V' => some .V | 'D' => some .D | 'I' => some .I | 'W' => some .W
  | 'E' => some .E | 'F' => some .F | 'S' => some .S | _ => none

/-- `ofChar` on a one-letter capture string. -/
def LogPriority.ofString (s : String) : Option LogPriority :=
  match s.data with
  | [c] => LogPriority.ofChar c
  | _ => none

/-- A JS `Date` built by `new Date(year, month, day, h, m, s, ms)`; fields
are stored as constructed (`month0` is the 0-based month argument). -/
structure DateM where
  year : Int
  month0 : Int
  day : Int
  hours : Int
  minutes : Int
  seconds : Int
  ms : Int
deriving DecidableEq

/-- Model of `Date.prototype.getTime`: a strictly monotone encoding of the
civil field tuple.  Epoch milliseconds are strictly increasing in the
lexicographic field order for in-range fields, so every comparison made by
the source (which only ever compares `getTime` values of parsed
timestamps) agrees with this encoding. -/
def DateM.getTime (d : DateM) : Int :=
  (((((d.year * 12 + d.month0) * 32 + d.day) * 24 + d.hours) * 60 + d.minutes) * 60
      + d.seconds) * 1000 + d.ms

/-- The `LogEntry` interface: optional fields are `Option`, absent by
default as in the freshly-built record of `parseLogLine`. -/
structure LogEntry where
  raw : String
  lineNumber : Nat
  timestampStr : Option String := none
  timestamp : Option DateM := none
  pid : Option Int := none
  tid : Option Int := none
  priority : Option LogPriority := none
  tag : Option String := none
  message : Option String := none
deriving DecidableEq

/-! ### Parser (`logcatParser.ts`) -/

/-- Capture accessor: `m[i+1]` of a JS match object (never out of range on
the patterns above). -/
def mGet (m : List String) (i : Nat) : String :=
  m.getD i ""

/-- `parseTimestamp`, with the ambient `new Date().getFullYear()` passed in
as `currentYear`. -/
def parseTimestamp (currentYear : Int) (timestampStr : String) : DateM :=
  let parts := splitWsRuns (jsTrim timestampStr)
  let datePart := parts.getD 0 ""
  let timePart := parts.getD 1 ""
  let md := (splitCh '-' datePart).map parseIntD
  let month := md.getD 0 0
  let day := md.getD 1 0
  let tparts := splitCh ':' timePart
  let hours := tparts.getD 0 ""
  let minutes := tparts.getD 1 ""
  let secondsMs := tparts.getD 2 ""
  let sms := splitCh '.' secondsMs
  let seconds := sms.getD 0 ""
  let ms := sms.getD 1 ""
  { year := currentYear, month0 := month - 1, day := day,
    hours := parseIntD hours, minutes := parseIntD minutes,
    seconds := parseIntD seconds, ms := parseIntD ms }

/-- `parseLogLine`: try the five patterns in source order (standard, brief,
time, tag, long header); on no match return the raw-only record. -/
def parseLogLine (currentYear : Int) (line : String) (lineNumber : Nat) : LogEntry :=
  let base : LogEntry := { raw := line, lineNumber := lineNumber }
  match reMatch standardPattern line with
  | some m =>
    { base with
      timestampStr := some (mGet m 0)
      timestamp := some (parseTimestamp currentYear (mGet m 0))
      pid := parseIntJS (mGet m 1)
      tid := parseIntJS (mGet m 2)
      priority := LogPriority.ofString (mGet m 3)
      tag := some (jsTrim (mGet m 4))
      message := some (mGet m 5) }
  | none =>
  match reMatch briefPattern line with
  | some m =>
    { base with
      priority := LogPriority.ofString (mGet m 0)
      tag := some (jsTrim (mGet m 1))
      pid := parseIntJS (mGet m 2)
      message := some (mGet m 3) }
  | none =>
  match reMatch timePattern line with
  | some m =>
    { base with
      timestampStr := some (mGet m 0)
      timestamp := some (parseTimestamp currentYear (mGet m 0))
      priority := LogPriority.ofString (mGet m 1)
      tag := some (jsTrim (mGet m 2))
      pid := parseIntJS (mGet m 3)
      message := some (mGet m 4) }
  | none =>
  match reMatch tagPattern line with
  | some m =>
    { base with
      priority := LogPriority.ofString (mGet m 0)
      tag := some (jsTrim (mGet m 1))
      message := some (mGet m 2) }
  | none =>
  match reMatch longHeaderPattern line with
  | some m =>
    { base with
      timestampStr := some (mGet m 0)
      timestamp := some (parseTimestamp currentYear (mGet m 0))
      pid := parseIntJS (mGet m 1)
      tid := parseIntJS (mGet m 2)
      priority := LogPriority.ofString (mGet m 3)
      tag := some (jsTrim (mGet m 4)) }
  | none => base

/-- `getPriorityLevel`: the 0..6 severity ladder, `-1` when absent. -/
def getPriorityLevel (priority : Option LogPriority) : Int :=
  match priority with
  | none => -1
  | some .V => 0
  | some .D => 1
  | some .I => 2
  | some .W => 3
  | some .E => 4
  | some .F => 5
  | some .S => 6

/-- `padStart(5)` with spaces. -/
def padStart5 (s : String) : String :=
  String.mk (List.replicate (5 - s.data.length) ' ') ++ s

/-- `formatLogEntry`: raw-only round trip for unparsed records, otherwise
parts joined by single spaces (JS truthiness: an empty `timestampStr` or
`tag` is skipped; `pid`/`tid`/`message` are tested for presence only). -/
def formatLogEntry (e : LogEntry) : String :=
  match e.priority with
  | none => e.raw
  | some p =>
    let parts : List String :=
      (match e.timestampStr with
       | some t => if t = "" then [] else [t]
       | none => []) ++
      (match e.pid with
       | some n => [padStart5 (toString n)]
       | none => []) ++
      (match e.tid with
       | some n => [padStart5 (toString n)]
       | none => []) ++
      [String.mk [p.toChar]] ++
      (match e.tag with
       | some t => if t = "" then [] else [t ++ ":"]
       | none => []) ++
      (match e.message with
       | some msg => [msg]
       | none => [])
    String.intercalate " " parts

/-! ### Entry collection operations (`androidRunner.ts`)

`[...entries].sort(cmp)` is modelled as the stable `List.mergeSort` with
`le a b := cmp a b ≤ 0`; for the consistent comparators used here this is
exactly the (since ES2019 stable) JS sort. -/

/-- JS `a.localeCompare(b)` modelled as code-point comparison (a strict
weak order, as `localeCompare` is; the particular collation plays no role
in any property proved below). -/
def listCmp : List Char → List Char → Int
  | [], [] => 0
  | [], _ :: _ => -1
  | _ :: _, [] => 1
  | c :: cs, d :: ds =>
    if c < d then -1 else if d < c then 1 else listCmp cs ds

/-- String comparison returning a JS-comparator-style integer. -/
def strCmp (a b : String) : Int :=
  listCmp a.data b.data

/-- The `sortByTime` comparator. -/
def cmpTimeJS (ascending : Bool) (a b : LogEntry) : Int :=
  match a.timestamp, b.timestamp with
  | none, none => 0
  | none, some _ => 1
  | some _, none => -1
  | some ta, some tb =>
    let diff := ta.getTime - tb.getTime
    if ascending then diff else -diff

/-- `sortByTime`. -/
def sortByTime (entries : List LogEntry) (ascending : Bool) : List LogEntry :=
  entries.mergeSort (fun a b => decide (cmpTimeJS ascending a b ≤ 0))

/-- The `sortByPriority` comparator. -/
def cmpPriorityJS (ascending : Bool) (a b : LogEntry) : Int :=
  let diff := getPriorityLevel a.priority - getPriorityLevel b.priority
  if ascending then diff else -diff

/-- `sortByPriority`. -/
def sortByPriority (entries : List LogEntry) (ascending : Bool) : List LogEntry :=
  entries.mergeSort (fun a b => decide (cmpPriorityJS ascending a b ≤ 0))

/-- The `sortByTag` comparator (`(a.tag || '').localeCompare(b.tag || '')`). -/
def cmpTagJS (ascending : Bool) (a b : LogEntry) : Int :=
  let diff := strCmp (a.tag.getD "") (b.tag.getD "")
  if ascending then diff else -diff

/-- `sortByTag`. -/
def sortByTag (entries : List LogEntry) (ascending : Bool) : List LogEntry :=
  entries.mergeSort (fun a b => decide (cmpTagJS ascending a b ≤ 0))

/-- `filterByPriority`. -/
def filterByPriority (entries : List LogEntry) (minPriority : LogPriority) : List LogEntry :=
  let minLevel := getPriorityLevel (some minPriority)
  entries.filter (fun e => decide (minLevel ≤ getPriorityLevel e.priority))

/-- `new RegExp(pattern, 'i')` abstracted: `none` models a compile throw,
`some test` the compiled case-insensitive `test` predicate. -/
def RegexCompiler := String → Option (String → Bool)

/-- `filterByTag`: regex filter when the pattern compiles (JS truthiness of
`entry.tag` requires a present, non-empty tag before `test` runs), exact
equality fallback when compilation throws. -/
def filterByTag (rc : RegexCompiler) (entries : List LogEntry) (tagPattern : String) :
    List LogEntry :=
  match rc tagPattern with
  | some test =>
    entries.filter (fun e =>
      match e.tag with
      | some t => !(t = "") && test t
      | none => false)
  | none => entries.filter (fun e => e.tag == some tagPattern)

/-- `filterByPid`. -/
def filterByPid (entries : List LogEntry) (pid : Int) : List LogEntry :=
  entries.filter (fun e => e.pid == some pid)

/-- `filterByMessage`: like `filterByTag` but the fallback is substring
containment (still guarded by `entry.message` truthiness). -/
def filterByMessage (rc : RegexCompiler) (entries : List LogEntry)
    (messagePattern : String) : List LogEntry :=
  match rc messagePattern with
  | some test =>
    entries.filter (fun e =>
      match e.message with
      | some msg => !(msg = "") && test msg
      | none => false)
  | none =>
    entries.filter (fun e =>
      match e.message with
      | some msg => !(msg = "") && strIncludes msg messagePattern
      | none => false)

/-! ### Filter term engine (webview `parseFilterTerms` / `matchesFilter`) -/

/-- A compiled term matches either by lowercased literal text or by an
(abstracted) compiled regex. -/
inductive TermMatcher where
  | text (t : String)
  | regex (test : String → Bool)

/-- One compiled filter term. -/
structure FilterTerm where
  matcher : TermMatcher
  negated : Bool

/-- `parseFilterTerms`: comma-split, trim, strip a `-` prefix, detect the
`/pattern/` shape (falling back to literal text when the regex throws at
compile time), lowercase literal terms, drop empty terms. -/
def parseFilterTerms (rc : RegexCompiler) (filterStr : String) : List FilterTerm :=
  if jsTrim filterStr = "" then []
  else
    (splitCh ',' filterStr).filterMap (fun t0 =>
      let t1 := jsTrim t0
      if t1 = "" then none
      else
        let isNegated := startsWithCh t1 '-'
        let t2 := if isNegated then String.mk (t1.data.drop 1) else t1
        if t2 = "" then none
        else if startsWithCh t2 '/' && endsWithCh t2 '/' && decide (2 < t2.data.length) then
          let pattern := String.mk ((t2.data.drop 1).dropLast)
          match rc pattern with
          | some f => some ⟨.regex f, isNegated⟩
          | none => some ⟨.text (toLowerJS t2), isNegated⟩
        else some ⟨.text (toLowerJS t2), isNegated⟩)

/-- One term test: `term.regex ? term.regex.test(value) :
valueLower.includes(term.text)`. -/
def termTest (value valueLower : String) (t : FilterTerm) : Bool :=
  match t.matcher with
  | .text tx => strIncludes valueLower tx
  | .regex f => f value

/-- `matchesFilter`: empty list passes; any matching negated term rejects;
otherwise pass when there are no positive terms or some positive term
matches. -/
def matchesFilter (value : String) (terms : List FilterTerm) : Bool :=
  if terms.length = 0 then true
  else
    let valueLower := toLowerJS value
    let positiveTerms := terms.filter (fun t => !t.negated)
    let negativeTerms := terms.filter (fun t => t.negated)
    if negativeTerms.any (termTest value valueLower) then false
    else if positiveTerms.length = 0 then true
    else positiveTerms.any (termTest value valueLower)

/-! ### Webview log records and streaming buffer -/

/-- A webview log record (all captures kept as strings). -/
structure WebLogEntry where
  raw : String
  timestamp : Option String := none
  pid : Option String := none
  tid : Option String := none
  priority : Option String := none
  tag : Option String := none
  message : Option String := none
deriving DecidableEq

/-- Leftmost match of the fallback regex `/\s([VDIWEF])\s/`: the captured
priority letter of the first whitespace-letter-whitespace triple. -/
def findBarePriority : List Char → Option Char
  | a :: b :: c :: rest =>
    if jsWhitespaceChar a && webPrioCh b && jsWhitespaceChar c then some b
    else findBarePriority (b :: c :: rest)
  | _ => none

namespace Panel

/-- `parseLine` of the editor-panel webview (`part_004`): full regex match,
else the fallback record with `priority: priorityMatch ? letter : null` and
`tag: ''`. -/
def parseLine (line : String) : WebLogEntry :=
  match reMatch webLogcatPattern line with
  | some m =>
    { raw := line, timestamp := some (mGet m 0), pid := some (mGet m 1),
      tid := some (mGet m 2), priority := some (mGet m 3),
      tag := some (jsTrim (mGet m 4)), message := some (mGet m 5) }
  | none =>
    { raw := line,
      priority := (findBarePriority line.data).map (fun c => String.mk [c]),
      tag := some "" }

/-- The records parsed out of one appended chunk. -/
def newLogsOf (text : String) : List WebLogEntry :=
  ((splitCh '\n' text).filter (fun l => !(jsTrim l = ""))).map parseLine

/-- `addLogs` of the panel webview: append, then `slice(-40000)` once the
buffer exceeds 50000. -/
def addLogs (allLogs : List WebLogEntry) (text : String) : List WebLogEntry :=
  let newLogs := newLogsOf text
  if 0 < newLogs.length then
    let all := allLogs ++ newLogs
    if 50000 < all.length then all.drop (all.length - 40000) else all
  else allLogs

end Panel

namespace Sidebar

/-- `parseLine` of the sidebar webview (`logcatViewProvider.ts`): as the
panel version, but the fallback priority defaults to `'V'` when no bare
priority letter is found. -/
def parseLine (line : String) : WebLogEntry :=
  match reMatch webLogcatPattern line with
  | some m =>
    { raw := line, timestamp := some (mGet m 0), pid := some (mGet m 1),
      tid := some (mGet m 2), priority := some (mGet m 3),
      tag := some (jsTrim (mGet m 4)), message := some (mGet m 5) }
  | none =>
    { raw := line,
      priority := some (match findBarePriority line.data with
                        | some c => String.mk [c]
                        | none => "V"),
      tag := some "" }

/-- The records parsed out of one appended chunk. -/
def newLogsOf (text : String) : List WebLogEntry :=
  ((splitCh '\n' text).filter (fun l => !(jsTrim l = ""))).map parseLine

/-- `addLogs` of the sidebar webview: append, then `slice(-25000)` once the
buffer exceeds 30000. -/
def addLogs (allLogs : List WebLogEntry) (text : String) : List WebLogEntry :=
  let lines := (splitCh '\n' text).filter (fun l => !(jsTrim l = ""))
  if lines.length = 0 then allLogs
  else
    let all := allLogs ++ lines.map parseLine
    if 30000 < all.length then all.drop (all.length - 25000) else all

end Sidebar

/-! ### Auxiliary definitions used by the statements below -/

/-- The character class of a pattern item (every char an item consumes
satisfies its class). -/
def itemPred : RItem → Char → Bool
  | .one p, c => p c
  | .rep _ p, c => p c
  | .plus p, c => p c
  | .star p, c => p c

/-- The capture groups of a pattern, in order. -/
def capItems : List RElem → List (List RItem)
  | [] => []
  | .raw _ :: es => capItems es
  | .cap items :: es => items :: capItems es

/-- Specification of one bounded-buffer append outcome: the result is a
suffix of `old ++ new` (newest records kept, oldest dropped, relative order
preserved), untouched while within capacity, of length exactly `trim` when
capacity was exceeded, and never longer than `cap`. -/
def TrimSpec (cap trim : Nat) (old new res : List WebLogEntry) : Prop :=
  (∃ k, res = (old ++ new).drop k) ∧
  ((old ++ new).length ≤ cap → res = old ++ new) ∧
  (cap < (old ++ new).length → res.length = trim) ∧
  res.length ≤ cap

/-- The worked standard-format example line. -/
def stdExampleLine : String :=
  "01-15 10:23:45.123  1234  5678 I MyTag: Hello world"

/-- A VERBOSE record. -/
def vRec : LogEntry :=
  { raw := "V/a: x", lineNumber := 1, priority := some .V, tag := some "a",
    message := some "x" }

/-- A WARNING record. -/
def wRec : LogEntry :=
  { raw := "W/b: y", lineNumber := 2, priority := some .W, tag := some "b",
    message := some "y" }

/-- An unparsed record (absent priority). -/
def uRec : LogEntry :=
  { raw := "unparsed", lineNumber := 3 }

/-- A record whose tag is present but empty. -/
def emptyTagEntry : LogEntry :=
  { raw := "e1", lineNumber := 1, tag := some "" }

/-- A record whose message is present but empty. -/
def emptyMsgEntry : LogEntry :=
  { raw := "e2", lineNumber := 2, message := some "" }

/-- Two records without timestamps (comparator-equality example). -/
def noTsA : LogEntry := { raw := "a", lineNumber := 1 }

/-- Second record without a timestamp. -/
def noTsB : LogEntry := { raw := "b", lineNumber := 2 }

/-- A model regex compiler defined on the pattern `".*"` only: `/.*/i`
matches (an empty substring of) every string, so its `test` is constantly
`true`; every other pattern is treated as failing to compile. -/
def rcStar : RegexCompiler :=
  fun p => if p = ".*" then some (fun _ => true) else none

/-! ### Helper lemmas -/

/-- Every valid priority sits at level 0 or above. -/
theorem prioLevel_nonneg (p : LogPriority) : 0 ≤ getPriorityLevel (some p) := by
  cases p <;> decide

/-- C2: a line matching none of the five formats parses to a record with
only `raw` and `lineNumber` populated, and `formatLogEntry` returns exactly
the original line on it. -/
theorem unparsed_line_roundtrip (y : Int) (L : String) (n : Nat)
    (h1 : reMatch standardPattern L = none) (h2 : reMatch briefPattern L = none)
    (h3 : reMatch timePattern L = none) (h4 : reMatch tagPattern L = none)
    (h5 : reMatch longHeaderPattern L = none) :
    parseLogLine y L n = { raw := L, lineNumber := n } ∧
    formatLogEntry (parseLogLine y L n) = L := by
  have hp : parseLogLine y L n = { raw := L, lineNumber := n } := by
    unfold parseLogLine
    rw [h1, h2, h3, h4, h5]
  exact ⟨hp, by rw [hp]; rfl⟩

/-- Witness for C2 at a concrete unparseable line. -/
theorem unparsed_line_roundtrip_witness :
    parseLogLine 2026 "garbage with no structure" 1 =
      { raw := "garbage with no structure", lineNumber := 1 } ∧
    formatLogEntry (parseLogLine 2026 "garbage with no structure" 1) =
      "garbage with no structure" :=
  unparsed_line_roundtrip 2026 "garbage with no structure" 1 rfl rfl rfl rfl rfl

/-- C4: `filterByPriority` keeps exactly the records at or above the
minimum level, in original order (a sublist of the input); absent-priority
records are always excluded; and the VERBOSE / WARNING / unparsed example
filters down to exactly the WARNING record. -/
theorem filterByPriority_spec (entries : List LogEntry) (P : LogPriority) :
    filterByPriority entries P =
      entries.filter (fun e =>
        decide (getPriorityLevel (some P) ≤ getPriorityLevel e.priority)) ∧
    (filterByPriority entries P).Sublist entries ∧
    (∀ e, e ∈ filterByPriority entries P ↔
        e ∈ entries ∧ getPriorityLevel (some P) ≤ getPriorityLevel e.priority) ∧
    (∀ e ∈ filterByPriority entries P, ¬e.priority = none) ∧
    filterByPriority [vRec, wRec, uRec] .W = [wRec] := by
  have hiff : ∀ e, e ∈ filterByPriority entries P ↔
      e ∈ entries ∧ getPriorityLevel (some P) ≤ getPriorityLevel e.priority := by
    intro e
    simp [filterByPriority, List.mem_filter]
  refine ⟨rfl, List.filter_sublist _, hiff, ?_, by decide⟩
  intro e he hnone
  have hle := ((hiff e).mp he).2
  rw [hnone] at hle
  have hnn := prioLevel_nonneg P
  have h0 : getPriorityLevel none = -1 := rfl
  rw [h0] at hle
  omega

/-- Witness for C4: the kept WARNING record indeed has a priority. -/
theorem filterByPriority_spec_witness : ¬wRec.priority = none :=
  (filterByPriority_spec [vRec, wRec, uRec] .W).2.2.2.1 wRec (by decide)

/-- C6 (amended): when the full regex fails and the bare-priority fallback
fires, both webview parsers return a record with `timestamp`, `pid`, `tid`
and `message` absent, `priority` the extracted letter — and `tag` set to
the empty string (not left absent). -/
theorem parseLine_fallback_fields (line : String) (c : Char)
    (hm : reMatch webLogcatPattern line = none)
    (hf : findBarePriority line.data = some c) :
    Panel.parseLine line =
      { raw := line, priority := some (String.mk [c]), tag := some "" } ∧
    Sidebar.parseLine line =
      { raw := line, priority := some (String.mk [c]), tag := some "" } := by
  constructor
  · simp [Panel.parseLine, hm, hf]
  · simp [Sidebar.parseLine, hm, hf]

/-- Witness for C6's amended theorem at the line `"x I y"`. -/
theorem parseLine_fallback_fields_witness :
    Panel.parseLine "x I y" =
      { raw := "x I y", priority := some "I", tag := some "" } ∧
    Sidebar.parseLine "x I y" =
      { raw := "x I y", priority := some "I", tag := some "" } :=
  parseLine_fallback_fields "x I y" 'I' rfl rfl

/-- Counterexample to C6 as stated: on `"x I y"` the fallback extracts the
bare priority letter `I`, yet `tag` IS populated (with the empty string). -/
theorem parseLine_fallback_tag_cex :
    reMatch webLogcatPattern "x I y" = none ∧
    findBarePriority (String.data "x I y") = some 'I' ∧
    (Panel.parseLine "x I y").priority = some "I" ∧
    ¬(Panel.parseLine "x I y").tag = none ∧
    (Panel.parseLine "x I y").tag = some "" ∧
    (Sidebar.parseLine "x I y").tag = some "" := by
  refine ⟨rfl, rfl, rfl, by decide, rfl, rfl⟩

/-- C7 (amended): `filterByTag` is total (invalid regexes are recovered as
the equality fallback, never an exception); a compiling pattern keeps
exactly the records whose tag is present, NON-EMPTY and accepted by the
compiled test; a non-compiling pattern keeps exactly the records whose tag
equals the pattern string. -/
theorem filterByTag_spec (rc : RegexCompiler) (entries : List LogEntry)
    (pattern : String) :
    (∀ test, rc pattern = some test →
      ∀ e, e ∈ filterByTag rc entries pattern ↔
        e ∈ entries ∧ ∃ t, e.tag = some t ∧ ¬t = "" ∧ test t = true) ∧
    (rc pattern = none →
      ∀ e, e ∈ filterByTag rc entries pattern ↔
        e ∈ entries ∧ e.tag = some pattern) := by
  constructor
  · intro test h e
    unfold filterByTag
    rw [h, List.mem_filter]
    cases htag : e.tag <;> simp [htag]
  · intro h e
    unfold filterByTag
    rw [h, List.mem_filter]
    simp

/-- Witness for C7's amended theorem: the `"(unclosed"` pattern (which the
model compiler rejects) falls back to exact tag equality. -/
theorem filterByTag_spec_witness :
    (wRec ∈ filterByTag rcStar [vRec, wRec] "(unclosed" ↔
      wRec ∈ [vRec, wRec] ∧ wRec.tag = some "(unclosed") ∧
    (vRec ∈ filterByTag rcStar [vRec, wRec] ".*" ↔
      vRec ∈ [vRec, wRec] ∧ ∃ t, vRec.tag = some t ∧ ¬t = "" ∧
        (fun (_ : String) => true) t = true) :=
  ⟨(filterByTag_spec rcStar [vRec, wRec] "(unclosed").2 rfl wRec,
   (filterByTag_spec rcStar [vRec, wRec] ".*").1 (fun _ => true) rfl vRec⟩

/-- Counterexample to C7 as stated: the pattern `".*"` compiles (its test
accepts every string, in particular the empty one), `emptyTagEntry`'s tag
is present and matches, yet the record is NOT kept. -/
theorem filterByTag_empty_tag_cex :
    rcStar ".*" = some (fun _ => true) ∧
    emptyTagEntry.tag = some "" ∧
    (fun (_ : String) => true) "" = true ∧
    filterByTag rcStar [emptyTagEntry] ".*" = [] :=
  ⟨rfl, rfl, rfl, rfl⟩

/-- C10: under any compiling pattern, every record kept by `filterByTag`
has a present non-empty tag and every record kept by `filterByMessage` has
a present non-empty message; records carrying an empty tag/message are
dropped even though the compiled test may accept the empty string. -/
theorem filter_nonempty_field_spec (rc : RegexCompiler) (pattern : String)
    (test : String → Bool) (entries : List LogEntry)
    (h : rc pattern = some test) :
    (∀ e ∈ filterByTag rc entries pattern, ∃ t, e.tag = some t ∧ ¬t = "") ∧
    (∀ e ∈ filterByMessage rc entries pattern,
      ∃ msg, e.message = some msg ∧ ¬msg = "") ∧
    filterByTag rc [emptyTagEntry] pattern = [] ∧
    filterByMessage rc [emptyMsgEntry] pattern = [] := by
  refine ⟨?_, ?_, ?_, ?_⟩
  · intro e he
    unfold filterByTag at he
    rw [h] at he
    have hmem := (List.mem_filter.mp he).2
    cases htag : e.tag with
    | none => rw [htag] at hmem; simp at hmem
    | some t =>
      rw [htag] at hmem
      simp at hmem
      exact ⟨t, rfl, hmem.1⟩
  · intro e he
    unfold filterByMessage at he
    rw [h] at he
    have hmem := (List.mem_filter.mp he).2
    cases hmsg : e.message with
    | none => rw [hmsg] at hmem; simp at hmem
    | some msg =>
      rw [hmsg] at hmem
      simp at hmem
      exact ⟨msg, rfl, hmem.1⟩
  · unfold filterByTag
    rw [h]
    rfl
  · unfold filterByMessage
    rw [h]
    rfl

/-- Witness for C10 with the `".*"` compiler model. -/
theorem filter_nonempty_field_spec_witness :
    filterByTag rcStar [emptyTagEntry] ".*" = [] ∧
    filterByMessage rcStar [emptyMsgEntry] ".*" = [] :=
  ⟨(filter_nonempty_field_spec rcStar ".*" (fun _ => true) [emptyTagEntry] rfl).2.2.1,
   (filter_nonempty_field_spec rcStar ".*" (fun _ => true) [emptyMsgEntry] rfl).2.2.2⟩

/-- C1: the exclude-then-include policy of `matchesFilter` — an empty term
list passes everything; a value matching any negated term is rejected; when
no negated term matches, the value passes iff there are no positive terms
or some positive term matches; and the `"foo,-bar"` example behaves as the
spec says on `"foobar"`, `"foo"`, `"baz"`. -/
theorem matchesFilter_exclusion_policy (value : String) (terms : List FilterTerm) :
    (terms = [] → matchesFilter value terms = true) ∧
    ((∃ t ∈ terms, t.negated = true ∧ termTest value (toLowerJS value) t = true) →
      matchesFilter value terms = false) ∧
    ((∀ t ∈ terms, t.negated = true → termTest value (toLowerJS value) t = false) →
      (((∀ t ∈ terms, t.negated = true) → matchesFilter value terms = true) ∧
       (matchesFilter value terms = true ↔
         (∀ t ∈ terms, t.negated = true) ∨
         ∃ t ∈ terms, t.negated = false ∧ termTest value (toLowerJS value) t = true))) ∧
    (∀ rc : RegexCompiler,
      matchesFilter "foobar" (parseFilterTerms rc "foo,-bar") = false ∧
      matchesFilter "foo" (parseFilterTerms rc "foo,-bar") = true ∧
      matchesFilter "baz" (parseFilterTerms rc "foo,-bar") = false) := by
  refine ⟨?_, ?_, ?_, fun rc => ⟨rfl, rfl, rfl⟩⟩
  · intro h
    subst h
    rfl
  · rintro ⟨t, ht, hneg, htest⟩
    have hne : ¬terms.length = 0 := by
      cases terms with
      | nil => simp at ht
      | cons a l => simp
    have hany : (terms.filter (fun t => t.negated)).any
        (termTest value (toLowerJS value)) = true :=
      List.any_eq_true.mpr ⟨t, List.mem_filter.mpr ⟨ht, hneg⟩, htest⟩
    unfold matchesFilter
    rw [if_neg hne]
    simp [hany]
  · intro hno
    have hnegany : (terms.filter (fun t => t.negated)).any
        (termTest value (toLowerJS value)) = false := by
      rw [List.any_eq_false]
      intro t ht
      have hm := List.mem_filter.mp ht
      simp [hno t hm.1 hm.2]
    constructor
    · intro hall
      cases terms with
      | nil => rfl
      | cons a l =>
        have hpos : (a :: l).filter (fun t => !t.negated) = [] := by
          rw [List.filter_eq_nil_iff]
          intro t ht
          simp [hall t ht]
        unfold matchesFilter
        rw [if_neg (by simp)]
        simp [hnegany, hpos]
    · by_cases hterms : terms = []
      · subst hterms
        simp [matchesFilter]
      · have hne : ¬terms.length = 0 := by
          simpa [List.length_eq_zero] using hterms
        unfold matchesFilter
        rw [if_neg hne]
        simp only [hnegany, Bool.false_eq_true, if_false]
        by_cases hpos : (terms.filter (fun t => !t.negated)).length = 0
        · rw [if_pos hpos]
          have hallneg : ∀ t ∈ terms, t.negated = true := by
            intro t ht
            have := List.filter_eq_nil_iff.mp (List.length_eq_zero.mp hpos) t ht
            simpa using this
          exact iff_of_true rfl (Or.inl hallneg)
        · rw [if_neg hpos]
          constructor
          · intro hany
            obtain ⟨t, ht, htest⟩ := List.any_eq_true.mp hany
            have hm := List.mem_filter.mp ht
            exact Or.inr ⟨t, hm.1, by simpa using hm.2, htest⟩
          · rintro (hallneg | ⟨t, ht, hnneg, htest⟩)
            · exfalso
              apply hpos
              rw [List.length_eq_zero, List.filter_eq_nil_iff]
              intro t ht
              simp [hallneg t ht]
            · exact List.any_eq_true.mpr
                ⟨t, List.mem_filter.mpr ⟨ht, by simp [hnneg]⟩, htest⟩

/-- Witness for C1: exclusion dominance and the empty-list rule at
concrete inputs. -/
theorem matchesFilter_exclusion_policy_witness :
    matchesFilter "foobar" (parseFilterTerms rcStar "foo,-bar") = false ∧
    matchesFilter "foobar" [⟨.text "bar", true⟩] = false ∧
    matchesFilter "x" [] = true :=
  ⟨((matchesFilter_exclusion_policy "foobar" []).2.2.2 rcStar).1,
   (matchesFilter_exclusion_policy "foobar" [⟨.text "bar", true⟩]).2.1
     ⟨⟨.text "bar", true⟩, List.mem_cons_self _ _, rfl, rfl⟩,
   (matchesFilter_exclusion_policy "x" []).1 rfl⟩

/-- C3: both webview buffers split the chunk on newlines, drop
whitespace-only lines, parse the rest, append after the existing records,
and trim from the front to the trim target exactly when capacity is
exceeded, never retaining more than the capacity. -/
theorem addLogs_buffer_bound (old : List WebLogEntry) (text : String) :
    (old.length ≤ 50000 →
      TrimSpec 50000 40000 old (Panel.newLogsOf text) (Panel.addLogs old text)) ∧
    (old.length ≤ 30000 →
      TrimSpec 30000 25000 old (Sidebar.newLogsOf text) (Sidebar.addLogs old text)) := by
  constructor
  · intro hold
    unfold Panel.addLogs TrimSpec
    by_cases hn : 0 < (Panel.newLogsOf text).length
    · rw [if_pos hn]
      by_cases hc : 50000 < (old ++ Panel.newLogsOf text).length
      · rw [if_pos hc]
        have hlen : ((old ++ Panel.newLogsOf text).drop
            ((old ++ Panel.newLogsOf text).length - 40000)).length = 40000 := by
          rw [List.length_drop]
          omega
        exact ⟨⟨_, rfl⟩, fun h => by omega, fun _ => hlen, by omega⟩
      · rw [if_neg hc]
        exact ⟨⟨0, (List.drop_zero _).symm⟩, fun _ => rfl, fun h => by omega, by omega⟩
    · rw [if_neg hn]
      have hemp : Panel.newLogsOf text = [] :=
        List.eq_nil_of_length_eq_zero (by omega)
      rw [hemp, List.append_nil]
      exact ⟨⟨0, (List.drop_zero _).symm⟩, fun _ => rfl, fun h => by omega, hold⟩
  · intro hold
    unfold Sidebar.addLogs TrimSpec
    have hnlo : Sidebar.newLogsOf text =
        ((splitCh '\n' text).filter (fun l => !(jsTrim l = ""))).map Sidebar.parseLine := rfl
    by_cases h0 : ((splitCh '\n' text).filter (fun l => !(jsTrim l = ""))).length = 0
    · rw [if_pos h0]
      have hemp : Sidebar.newLogsOf text = [] := by
        rw [hnlo]
        rw [List.eq_nil_of_length_eq_zero h0]
        rfl
      rw [hemp, List.append_nil]
      exact ⟨⟨0, (List.drop_zero _).symm⟩, fun _ => rfl, fun h => by omega, hold⟩
    · rw [if_neg h0]
      rw [← hnlo]
      by_cases hc : 30000 < (old ++ Sidebar.newLogsOf text).length
      · rw [if_pos hc]
        have hlen : ((old ++ Sidebar.newLogsOf text).drop
            ((old ++ Sidebar.newLogsOf text).length - 25000)).length = 25000 := by
          rw [List.length_drop]
          omega
        exact ⟨⟨_, rfl⟩, fun h => by omega, fun _ => hlen, by omega⟩
      · rw [if_neg hc]
        exact ⟨⟨0, (List.drop_zero _).symm⟩, fun _ => rfl, fun h => by omega, by omega⟩

/-- Witness for C3 on an empty buffer receiving a three-line chunk with
one whitespace-only line. -/
theorem addLogs_buffer_bound_witness :
    TrimSpec 50000 40000 [] (Panel.newLogsOf "a\n \nb") (Panel.addLogs [] "a\n \nb") ∧
    TrimSpec 30000 25000 [] (Sidebar.newLogsOf "a\n \nb") (Sidebar.addLogs [] "a\n \nb") :=
  ⟨(addLogs_buffer_bound [] "a\n \nb").1 (by simp),
   (addLogs_buffer_bound [] "a\n \nb").2 (by simp)⟩

/-- A prefix of a satisfying run consists of satisfying chars. -/
theorem take_of_takeWhile_sat (p : Char → Bool) :
    ∀ (cs : List Char) (len : Nat), len ≤ (cs.takeWhile p).length →
      ∀ c ∈ cs.take len, p c = true := by
  intro cs
  induction cs with
  | nil =>
    intro len _ c hc
    simp at hc
  | cons a t ih =>
    intro len hlen c hc
    cases len with
    | zero => simp at hc
    | succ m =>
      by_cases hp : p a
      · rw [List.takeWhile_cons_of_pos hp, List.length_cons] at hlen
        rw [List.take_succ_cons] at hc
        rcases List.mem_cons.mp hc with rfl | hc2
        · exact hp
        · exact ih m (by omega) c hc2
      · rw [List.takeWhile_cons_of_neg hp] at hlen
        simp at hlen

/-- Chars consumed by `takeExact` satisfy the class. -/
theorem takeExact_chars (p : Char → Bool) :
    ∀ (n : Nat) (cs : List Char) (pr : List Char × List Char),
      takeExact n p cs = some pr → ∀ c ∈ pr.1, p c = true := by
  intro n
  induction n with
  | zero =>
    intro cs pr h c hc
    simp [takeExact] at h
    subst h
    simp at hc
  | succ m ih =>
    intro cs pr h c hc
    cases cs with
    | nil => simp [takeExact] at h
    | cons a t =>
      rw [takeExact] at h
      by_cases hp : p a
      · rw [if_pos hp] at h
        cases hrec : takeExact m p t with
        | none => rw [hrec] at h; simp at h
        | some qr =>
          rw [hrec] at h
          simp at h
          subst h
          simp at hc
          rcases hc with rfl | hc2
          · exact hp
          · exact ih t qr hrec c hc2
      · rw [if_neg hp] at h
        simp at h

/-- Chars consumed by one pattern item satisfy its class. -/
theorem itemAlts_chars (it : RItem) (s : List Char) (pr : List Char × List Char)
    (h : pr ∈ itemAlts it s) : ∀ c ∈ pr.1, itemPred it c = true := by
  cases it with
  | one p =>
    cases s with
    | nil => simp [itemAlts] at h
    | cons a r =>
      rw [itemAlts] at h
      by_cases hp : p a
      · rw [if_pos hp] at h
        rcases List.mem_singleton.mp h with rfl
        intro c hc
        rcases List.mem_singleton.mp hc with rfl
        exact hp
      · rw [if_neg hp] at h
        simp at h
  | rep n p =>
    rw [itemAlts] at h
    cases hte : takeExact n p s with
    | none => rw [hte] at h; simp at h
    | some qr =>
      rw [hte] at h
      rcases List.mem_singleton.mp h with rfl
      exact takeExact_chars p n s pr hte
  | plus p =>
    rw [itemAlts] at h
    unfold greedyAlts at h
    obtain ⟨i, _, hi⟩ := List.mem_filterMap.mp h
    by_cases hmin : 1 ≤ (s.takeWhile p).length - i
    · rw [if_pos hmin] at hi
      obtain rfl := Option.some_injective _ hi
      exact take_of_takeWhile_sat p s _ (by omega)
    · rw [if_neg hmin] at hi
      simp at hi
  | star p =>
    rw [itemAlts] at h
    unfold greedyAlts at h
    obtain ⟨i, _, hi⟩ := List.mem_filterMap.mp h
    by_cases hmin : 0 ≤ (s.takeWhile p).length - i
    · rw [if_pos hmin] at hi
      obtain rfl := Option.some_injective _ hi
      exact take_of_takeWhile_sat p s _ (by omega)
    · omega

/-- Chars consumed by an item sequence satisfy the class of one of its
items. -/
theorem itemsAlts_chars :
    ∀ (its : List RItem) (s : List Char) (pr : List Char × List Char),
      pr ∈ itemsAlts its s → ∀ c ∈ pr.1, ∃ it ∈ its, itemPred it c = true := by
  intro its
  induction its with
  | nil =>
    intro s pr h c hc
    rw [itemsAlts] at h
    rcases List.mem_singleton.mp h with rfl
    simp at hc
  | cons it rest ih =>
    intro s pr h c hc
    rw [itemsAlts] at h
    obtain ⟨ar, har, hmem⟩ := List.mem_flatMap.mp h
    obtain ⟨qr, hqr, rfl⟩ := List.mem_map.mp hmem
    rcases List.mem_append.mp hc with hcl | hcr
    · exact ⟨it, List.mem_cons_self _ _, itemAlts_chars it s ar har c hcl⟩
    · obtain ⟨it2, hit2, hsat⟩ := ih ar.2 qr hqr c hcr
      exact ⟨it2, List.mem_cons_of_mem _ hit2, hsat⟩

/-- Every capture of a pattern outcome consists of chars drawn from the
classes of its capture group's items. -/
theorem elemsAlts_caps :
    ∀ (elems : List RElem) (s : List Char) (res : List String × List Char),
      res ∈ elemsAlts elems s →
      List.Forall₂
        (fun (cap : String) grp => ∀ c ∈ cap.data, ∃ it ∈ grp, itemPred it c = true)
        res.1 (capItems elems) := by
  intro elems
  induction elems with
  | nil =>
    intro s res h
    rw [elemsAlts] at h
    rcases List.mem_singleton.mp h with rfl
    exact List.Forall₂.nil
  | cons e rest ih =>
    cases e with
    | raw items =>
      intro s res h
      rw [elemsAlts] at h
      obtain ⟨pr, _, hres⟩ := List.mem_flatMap.mp h
      exact ih pr.2 res hres
    | cap items =>
      intro s res h
      rw [elemsAlts] at h
      obtain ⟨pr, hpr, hmem⟩ := List.mem_flatMap.mp h
      obtain ⟨qr, hqr, rfl⟩ := List.mem_map.mp hmem
      exact List.Forall₂.cons (itemsAlts_chars items s pr hpr) (ih pr.2 qr hqr)

/-- The tag capture of a standard-pattern match contains no colon. -/
theorem standard_tag_no_colon (line : String) (m : List String)
    (h : reMatch standardPattern line = some m) :
    ∀ c ∈ (mGet m 4).data, ¬c = ':' := by
  unfold reMatch at h
  cases hf : (elemsAlts standardPattern line.data).find? (fun r => r.2.isEmpty) with
  | none => rw [hf] at h; simp at h
  | some res =>
    rw [hf] at h
    simp at h
    have hmem := List.mem_of_find?_eq_some hf
    have hall := elemsAlts_caps standardPattern line.data res hmem
    rw [h] at hall
    have hcap : capItems standardPattern =
        [tsItems, [.plus digitCh], [.plus digitCh], [.one prioCh],
         [.plus (fun c => !(c == ':'))], [.star dotCh]] := rfl
    rw [hcap] at hall
    rcases hall with _ | ⟨_, hall⟩
    rcases hall with _ | ⟨_, hall⟩
    rcases hall with _ | ⟨_, hall⟩
    rcases hall with _ | ⟨_, hall⟩
    rcases hall with _ | ⟨h4, hall⟩
    intro c hc
    obtain ⟨it, hit, hsat⟩ := h4 c hc
    rcases List.mem_singleton.mp hit with rfl
    intro hcolon
    rw [hcolon] at hsat
    simp [itemPred] at hsat

/-- C5: on any standard/threadtime match, `parseLogLine` fills timestamp,
pid, tid, priority, trimmed tag and message from the captures (the tag
capture can contain no colon, so the tag/message split happens at the
first colon after the priority token), and the worked example line yields
exactly the specified record (with the current year in the timestamp). -/
theorem parseLogLine_standard_spec :
    (∀ (y : Int) (line : String) (n : Nat) (m : List String),
      reMatch standardPattern line = some m →
      parseLogLine y line n =
        { raw := line, lineNumber := n,
          timestampStr := some (mGet m 0),
          timestamp := some (parseTimestamp y (mGet m 0)),
          pid := parseIntJS (mGet m 1), tid := parseIntJS (mGet m 2),
          priority := LogPriority.ofString (mGet m 3),
          tag := some (jsTrim (mGet m 4)), message := some (mGet m 5) } ∧
      (∀ c ∈ (mGet m 4).data, ¬c = ':')) ∧
    (∀ (y : Int) (n : Nat),
      parseLogLine y stdExampleLine n =
        { raw := stdExampleLine, lineNumber := n,
          timestampStr := some "01-15 10:23:45.123",
          timestamp := some ⟨y, 0, 15, 10, 23, 45, 123⟩,
          pid := some 1234, tid := some 5678, priority := some .I,
          tag := some "MyTag", message := some "Hello world" }) := by
  constructor
  · intro y line n m h
    constructor
    · unfold parseLogLine
      rw [h]
    · exact standard_tag_no_colon line m h
  · intro y n
    rfl

/-- Witness for C5 at the worked example line. -/
theorem parseLogLine_standard_spec_witness :
    reMatch standardPattern stdExampleLine =
      some ["01-15 10:23:45.123", "1234", "5678", "I", "MyTag", "Hello world"] ∧
    parseLogLine 2026 stdExampleLine 7 =
      { raw := stdExampleLine, lineNumber := 7,
        timestampStr := some "01-15 10:23:45.123",
        timestamp := some ⟨2026, 0, 15, 10, 23, 45, 123⟩,
        pid := some 1234, tid := some 5678, priority := some .I,
        tag := some "MyTag", message := some "Hello world" } ∧
    (∀ c ∈ (mGet ["01-15 10:23:45.123", "1234", "5678", "I", "MyTag",
        "Hello world"] 4).data, ¬c = ':') := by
  have h := parseLogLine_standard_spec.1 2026 stdExampleLine 7
    ["01-15 10:23:45.123", "1234", "5678", "I", "MyTag", "Hello world"] rfl
  exact ⟨rfl, h.1.trans rfl, h.2⟩

/-- `listCmp` is antisymmetric under argument swap. -/
theorem listCmp_swap : ∀ (a b : List Char), listCmp b a = -listCmp a b := by
  intro a
  induction a with
  | nil =>
    intro b
    cases b <;> simp [listCmp]
  | cons x xs ih =>
    intro b
    cases b with
    | nil => simp [listCmp]
    | cons y ys =>
      simp only [listCmp]
      rcases lt_trichotomy x y with h | h | h
      · rw [if_neg (asymm h), if_pos h, if_pos h]
        decide
      · subst h
        simp only [lt_self_iff_false, if_false]
        exact ih ys
      · rw [if_pos h, if_neg (asymm h), if_pos h]

/-- `listCmp`-nonpositivity is transitive. -/
theorem listCmp_trans :
    ∀ (a b c : List Char), listCmp a b ≤ 0 → listCmp b c ≤ 0 → listCmp a c ≤ 0 := by
  intro a
  induction a with
  | nil =>
    intro b c _ _
    cases c <;> simp [listCmp]
  | cons x xs ih =>
    intro b c h1 h2
    cases b with
    | nil => simp [listCmp] at h1
    | cons y ys =>
      cases c with
      | nil => simp [listCmp] at h2
      | cons z zs =>
        simp only [listCmp] at h1 h2 ⊢
        by_cases hxy : x < y
        · by_cases hyz : y < z
          · rw [if_pos (lt_trans hxy hyz)]
            omega
          · by_cases hzy : z < y
            · rw [if_neg hyz, if_pos hzy] at h2
              omega
            · have hyeq : y = z := le_antisymm (le_of_not_lt hzy) (le_of_not_lt hyz)
              rw [← hyeq, if_pos hxy]
              omega
        · by_cases hyx : y < x
          · rw [if_neg hxy, if_pos hyx] at h1
            omega
          · have hxeq : x = y := le_antisymm (le_of_not_lt hyx) (le_of_not_lt hxy)
            subst hxeq
            rw [if_neg hxy, if_neg hyx] at h1
            by_cases hyz : x < z
            · rw [if_pos hyz]
              omega
            · by_cases hzy : z < x
              · rw [if_neg hyz, if_pos hzy] at h2
                omega
              · rw [if_neg hyz, if_neg hzy] at h2 ⊢
                exact ih ys zs h1 h2


/-- `cmpTimeJS`-nonpositivity is transitive. -/
theorem cmpTime_trans (asc : Bool) (a b c : LogEntry)
    (h1 : cmpTimeJS asc a b ≤ 0) (h2 : cmpTimeJS asc b c ≤ 0) :
    cmpTimeJS asc a c ≤ 0 := by
  unfold cmpTimeJS at h1 h2 ⊢
  rcases ha : a.timestamp with _ | ta <;> rcases hb : b.timestamp with _ | tb <;>
    rcases hc : c.timestamp with _ | tc <;> cases asc <;> simp_all <;> omega

/-- `cmpTimeJS`-nonpositivity is total. -/
theorem cmpTime_total (asc : Bool) (a b : LogEntry) :
    cmpTimeJS asc a b ≤ 0 ∨ cmpTimeJS asc b a ≤ 0 := by
  unfold cmpTimeJS
  rcases ha : a.timestamp with _ | ta <;> rcases hb : b.timestamp with _ | tb <;>
    cases asc <;> simp_all <;> omega

/-- `cmpPriorityJS`-nonpositivity is transitive. -/
theorem cmpPriority_trans (asc : Bool) (a b c : LogEntry)
    (h1 : cmpPriorityJS asc a b ≤ 0) (h2 : cmpPriorityJS asc b c ≤ 0) :
    cmpPriorityJS asc a c ≤ 0 := by
  unfold cmpPriorityJS at h1 h2 ⊢
  cases asc <;> simp_all <;> omega

/-- `cmpPriorityJS`-nonpositivity is total. -/
theorem cmpPriority_total (asc : Bool) (a b : LogEntry) :
    cmpPriorityJS asc a b ≤ 0 ∨ cmpPriorityJS asc b a ≤ 0 := by
  unfold cmpPriorityJS
  cases asc <;> simp_all <;> omega

/-- `cmpTagJS`-nonpositivity is transitive. -/
theorem cmpTag_trans (asc : Bool) (a b c : LogEntry)
    (h1 : cmpTagJS asc a b ≤ 0) (h2 : cmpTagJS asc b c ≤ 0) :
    cmpTagJS asc a c ≤ 0 := by
  unfold cmpTagJS strCmp at h1 h2 ⊢
  cases asc with
  | false =>
    simp only [if_neg (by simp : ¬false = true)] at h1 h2 ⊢
    have s1 := listCmp_swap (a.tag.getD "").data (b.tag.getD "").data
    have s2 := listCmp_swap (b.tag.getD "").data (c.tag.getD "").data
    have s3 := listCmp_swap (a.tag.getD "").data (c.tag.getD "").data
    have := listCmp_trans (c.tag.getD "").data (b.tag.getD "").data (a.tag.getD "").data
      (by omega) (by omega)
    omega
  | true =>
    simp only [if_pos rfl] at h1 h2 ⊢
    exact listCmp_trans _ _ _ h1 h2

/-- `cmpTagJS`-nonpositivity is total. -/
theorem cmpTag_total (asc : Bool) (a b : LogEntry) :
    cmpTagJS asc a b ≤ 0 ∨ cmpTagJS asc b a ≤ 0 := by
  unfold cmpTagJS strCmp
  have s := listCmp_swap (a.tag.getD "").data (b.tag.getD "").data
  cases asc <;> simp <;> omega

/-- Sortedness of `mergeSort` under a transitive, total JS comparator. -/
theorem mergeSort_cmp_sorted (cmp : LogEntry → LogEntry → Int)
    (htrans : ∀ a b c, cmp a b ≤ 0 → cmp b c ≤ 0 → cmp a c ≤ 0)
    (htotal : ∀ a b, cmp a b ≤ 0 ∨ cmp b a ≤ 0) (l : List LogEntry) :
    (l.mergeSort (fun a b => decide (cmp a b ≤ 0))).Pairwise
      (fun a b => cmp a b ≤ 0) := by
  have h := @List.sorted_mergeSort LogEntry (fun a b => decide (cmp a b ≤ 0))
    (fun a b c hab hbc =>
      decide_eq_true (htrans a b c (of_decide_eq_true hab) (of_decide_eq_true hbc)))
    (fun a b => by
      rcases htotal a b with h | h <;> simp [h])
    l
  exact h.imp (fun hab => of_decide_eq_true hab)

/-- Idempotence of `mergeSort` under a transitive, total JS comparator. -/
theorem mergeSort_cmp_idem (cmp : LogEntry → LogEntry → Int)
    (htrans : ∀ a b c, cmp a b ≤ 0 → cmp b c ≤ 0 → cmp a c ≤ 0)
    (htotal : ∀ a b, cmp a b ≤ 0 ∨ cmp b a ≤ 0) (l : List LogEntry) :
    (l.mergeSort (fun a b => decide (cmp a b ≤ 0))).mergeSort
        (fun a b => decide (cmp a b ≤ 0)) =
      l.mergeSort (fun a b => decide (cmp a b ≤ 0)) :=
  List.mergeSort_of_sorted
    (List.sorted_mergeSort
      (fun a b c hab hbc =>
        decide_eq_true (htrans a b c (of_decide_eq_true hab) (of_decide_eq_true hbc)))
      (fun a b => by rcases htotal a b with h | h <;> simp [h])
      l)

/-- C8: `sortByTime` puts every timestamp-less entry after every
timestamped one in either direction, orders timestamped entries by their
timestamp value in the requested direction, and compares any two
timestamp-less entries as equal. -/
theorem sortByTime_order_spec (entries : List LogEntry) (asc : Bool) :
    (sortByTime entries asc).Pairwise
      (fun a b => a.timestamp = none → b.timestamp = none) ∧
    (sortByTime entries asc).Pairwise
      (fun a b => ∀ ta tb, a.timestamp = some ta → b.timestamp = some tb →
        (if asc then ta.getTime ≤ tb.getTime else tb.getTime ≤ ta.getTime)) ∧
    (∀ a b : LogEntry, a.timestamp = none → b.timestamp = none →
      cmpTimeJS asc a b = 0) := by
  have hs := mergeSort_cmp_sorted (cmpTimeJS asc) (cmpTime_trans asc)
    (cmpTime_total asc) entries
  refine ⟨hs.imp ?_, hs.imp ?_, ?_⟩
  · intro a b hab hna
    cases htb : b.timestamp with
    | none => rfl
    | some tb =>
      unfold cmpTimeJS at hab
      rw [hna, htb] at hab
      simp at hab
  · intro a b hab ta tb hta htb
    unfold cmpTimeJS at hab
    rw [hta, htb] at hab
    cases asc <;> simp_all
  · intro a b h1 h2
    unfold cmpTimeJS
    rw [h1, h2]

/-- Witness for C8: two concrete timestamp-less records compare as equal
in both directions. -/
theorem sortByTime_order_spec_witness :
    cmpTimeJS true noTsA noTsB = 0 ∧ cmpTimeJS false noTsA noTsB = 0 :=
  ⟨(sortByTime_order_spec [noTsA, noTsB] true).2.2 noTsA noTsB rfl rfl,
   (sortByTime_order_spec [noTsA, noTsB] false).2.2 noTsA noTsB rfl rfl⟩

/-- C9: each of the three sorts is idempotent in either direction (sorting
its own output reproduces it element for element), and sorting only
permutes the records — every record survives unmodified. -/
theorem sort_idempotent_spec (entries : List LogEntry) (asc : Bool) :
    sortByTime (sortByTime entries asc) asc = sortByTime entries asc ∧
    sortByPriority (sortByPriority entries asc) asc = sortByPriority entries asc ∧
    sortByTag (sortByTag entries asc) asc = sortByTag entries asc ∧
    (sortByTime entries asc).Perm entries ∧
    (sortByPriority entries asc).Perm entries ∧
    (sortByTag entries asc).Perm entries :=
  ⟨mergeSort_cmp_idem (cmpTimeJS asc) (cmpTime_trans asc) (cmpTime_total asc) entries,
   mergeSort_cmp_idem (cmpPriorityJS asc) (cmpPriority_trans asc) (cmpPriority_total asc) entries,
   mergeSort_cmp_idem (cmpTagJS asc) (cmpTag_trans asc) (cmpTag_total asc) entries,
   List.mergeSort_perm entries _,
   List.mergeSort_perm entries _,
   List.mergeSort_perm entries _⟩

end Logcat
